import Mathlib

/-!
Verification development for the CommunityBot repository (a Telegram
"random coffee" bot).  The SQLite tables are modelled as Lean lists of
row structures, the repository functions (src/database/repositories/*)
as pure functions on those lists, and the matching engine
(src/services/matching_service.py) as a deterministic function whose
random choices (the initial shuffle and the placement of a leftover
member) are exposed as parameters.  Machine timestamps are threaded as
explicit parameters.
-/

namespace CommunityBot

/-- Row of the `users` table / the `User` dataclass (src/database/models.py).
Timestamp columns (`subscribed_at`, `created_at`) are omitted: no code
path modelled here reads them. -/
structure User where
  user_id : Int
  username : Option String := none
  first_name : Option String := none
  last_name : Option String := none
  is_subscribed : Bool := false
  can_receive_dm : Bool := true
deriving DecidableEq, Repr

/-- Row of the `matching_rounds` table (src/database/connection.py).
`month_year` carries a UNIQUE constraint in the schema.  The
`executed_at` column is omitted (only read by `get_latest_round`,
which no modelled claim touches). -/
structure RoundRow where
  id : Nat
  month_year : String
  total_subscribers : Nat
  total_pairs : Nat
deriving DecidableEq, Repr

/-- Row of the `matches` table. -/
structure MatchRow where
  id : Nat
  round_id : Nat
  user1_id : Int
  user2_id : Int
  user3_id : Option Int
deriving DecidableEq, Repr

/-- Row of the `match_history` table.  NOTE: the schema declares only the
surrogate `id INTEGER PRIMARY KEY AUTOINCREMENT` and a plain
(non-UNIQUE) index on `(user_id_1, user_id_2)`; there is no uniqueness
constraint on the pair columns. -/
structure HistRow where
  id : Nat
  user_id_1 : Int
  user_id_2 : Int
  match_date : String
  round_id : Nat
deriving DecidableEq, Repr

/-- Row of the `follow_ups` table; the schema has `UNIQUE(match_id, user_id)`.
Timestamps are modelled as abstract Nat ticks. -/
structure FURow where
  id : Nat
  match_id : Nat
  user_id : Int
  question_sent_at : Nat
  response : Option String := none
  responded_at : Option Nat := none
deriving DecidableEq, Repr

/-- Row of the `meeting_streaks` table (`user_id` is the primary key). -/
structure StreakRow where
  user_id : Int
  consecutive_misses : Nat
  last_updated_month : String
deriving DecidableEq, Repr

/-- `tuple(sorted([a, b]))` from `_generate_matches.can_pair`, and the
reordering prelude of `add_to_history` / `have_been_matched`
(`if user_id_1 > user_id_2: swap`). -/
def sortPair (a b : Int) : Int × Int :=
  if a > b then (b, a) else (a, b)

/-- `MatchRepository.add_to_history` (src/database/repositories/match_repo.py,
lines 162-172).  The SQL is `INSERT OR IGNORE INTO match_history ...`,
but since `match_history` has no uniqueness constraint on
`(user_id_1, user_id_2)` (only the autoincrement primary key, which
never conflicts), the insert always succeeds: the statement appends a
row unconditionally. -/
def add_to_history (uid1 uid2 : Int) (date : String) (roundId : Nat)
    (tbl : List HistRow) : List HistRow :=
  let p := sortPair uid1 uid2
  tbl ++ [⟨tbl.length + 1, p.1, p.2, date, roundId⟩]

/-- Number of `match_history` rows stored for the ordered key `(a, b)`. -/
def countPair (a b : Int) (tbl : List HistRow) : Nat :=
  tbl.countP (fun r => r.user_id_1 == a && r.user_id_2 == b)

/-- `MatchRepository.get_historical_pairs`: `SELECT user_id_1, user_id_2
FROM match_history`, collected into a set of tuples.  The Python set is
modelled as a list; only membership is ever consulted. -/
def get_historical_pairs (tbl : List HistRow) : List (Int × Int) :=
  tbl.map (fun r => (r.user_id_1, r.user_id_2))

/-- `MatchRepository.have_been_matched` (lines 182-195): normalise the pair
ordering, then `SELECT 1 FROM match_history WHERE user_id_1 = ? AND
user_id_2 = ? LIMIT 1`. -/
def have_been_matched (uid1 uid2 : Int) (tbl : List HistRow) : Bool :=
  let p := sortPair uid1 uid2
  tbl.any (fun r => r.user_id_1 == p.1 && r.user_id_2 == p.2)

/-- `MatchRepository.create_round_atomic` (lines 28-49): `INSERT OR IGNORE
INTO matching_rounds (month_year, total_subscribers, total_pairs)
VALUES (?, 0, 0)`.  Here `month_year` IS declared UNIQUE, so the OR
IGNORE genuinely skips the insert when a row with the same key exists
(`cursor.rowcount == 0` and the function returns None).  On success the
code re-reads the row with `get_current_round`; since the key is unique
and the row was just inserted with stats (0, 0), that read returns
exactly the inserted row, which we return directly.  The AUTOINCREMENT
id is modelled as `tbl.length + 1` (rounds are never deleted). -/
def create_round_atomic (monthYear : String) (tbl : List RoundRow) :
    Option RoundRow × List RoundRow :=
  if tbl.any (fun r => r.month_year == monthYear) then
    (none, tbl)
  else
    let row : RoundRow := ⟨tbl.length + 1, monthYear, 0, 0⟩
    (some row, tbl ++ [row])

/-- `MatchRepository.get_current_round`: `SELECT * FROM matching_rounds
WHERE month_year = ?` (first row). -/
def get_current_round (monthYear : String) (tbl : List RoundRow) : Option RoundRow :=
  tbl.find? (fun r => r.month_year == monthYear)

/-- `MatchRepository.update_round_stats` (lines 52-59): `UPDATE
matching_rounds SET total_subscribers = ?, total_pairs = ? WHERE id = ?`. -/
def update_round_stats (roundId subs pairs : Nat) (tbl : List RoundRow) : List RoundRow :=
  tbl.map (fun r =>
    if r.id == roundId then
      { r with total_subscribers := subs, total_pairs := pairs }
    else r)

/-- `MatchRepository.create_match` (lines 99-118): plain INSERT into
`matches`, AUTOINCREMENT id modelled as `tbl.length + 1`. -/
def create_match (roundId : Nat) (u1 u2 : Int) (u3 : Option Int)
    (tbl : List MatchRow) : MatchRow × List MatchRow :=
  let row : MatchRow := ⟨tbl.length + 1, roundId, u1, u2, u3⟩
  (row, tbl ++ [row])

/-- `FollowUpRepository.create_followup` (src/database/repositories/followup_repo.py,
lines 8-24): `INSERT INTO follow_ups (match_id, user_id, question_sent_at)
VALUES (?, ?, ?) ON CONFLICT(match_id, user_id) DO UPDATE SET
question_sent_at = excluded.question_sent_at`.  On conflict only
`question_sent_at` is updated; `response` / `responded_at` keep their
stored values.  A fresh row gets NULL response columns. -/
def create_followup (mid : Nat) (uid : Int) (now : Nat) (tbl : List FURow) : List FURow :=
  if tbl.any (fun r => r.match_id == mid && r.user_id == uid) then
    tbl.map (fun r =>
      if r.match_id == mid && r.user_id == uid then
        { r with question_sent_at := now }
      else r)
  else
    tbl ++ [⟨tbl.length + 1, mid, uid, now, none, none⟩]

/-- `FollowUpRepository.record_response` (lines 27-35): a plain `UPDATE
follow_ups SET response = ?, responded_at = ? WHERE match_id = ? AND
user_id = ?`.  It is not an upsert: when no row matches, nothing is
written. -/
def record_response (mid : Nat) (uid : Int) (response : String) (now : Nat)
    (tbl : List FURow) : List FURow :=
  tbl.map (fun r =>
    if r.match_id == mid && r.user_id == uid then
      { r with response := some response, responded_at := some now }
    else r)

/-- `FollowUpRepository.get_streak`: `SELECT * FROM meeting_streaks WHERE
user_id = ?`. -/
def get_streak (uid : Int) (tbl : List StreakRow) : Option StreakRow :=
  tbl.find? (fun r => r.user_id == uid)

/-- `FollowUpRepository.increment_miss` (lines 114-125): `INSERT INTO
meeting_streaks (user_id, consecutive_misses, last_updated_month)
VALUES (?, 1, ?) ON CONFLICT(user_id) DO UPDATE SET
consecutive_misses = meeting_streaks.consecutive_misses + 1,
last_updated_month = excluded.last_updated_month`.  There is no
comparison against the stored `last_updated_month`: the counter is
incremented unconditionally on every call. -/
def increment_miss (uid : Int) (monthYear : String) (tbl : List StreakRow) : List StreakRow :=
  if tbl.any (fun r => r.user_id == uid) then
    tbl.map (fun r =>
      if r.user_id == uid then
        { r with consecutive_misses := r.consecutive_misses + 1,
                 last_updated_month := monthYear }
      else r)
  else
    tbl ++ [⟨uid, 1, monthYear⟩]

/-- `FollowUpRepository.reset_streak` (lines 128-138): same upsert with the
counter forced to 0. -/
def reset_streak (uid : Int) (monthYear : String) (tbl : List StreakRow) : List StreakRow :=
  if tbl.any (fun r => r.user_id == uid) then
    tbl.map (fun r =>
      if r.user_id == uid then
        { r with consecutive_misses := 0, last_updated_month := monthYear }
      else r)
  else
    tbl ++ [⟨uid, 0, monthYear⟩]

/-- `InactivityService.process_followup_response`
(src/services/inactivity_service.py, lines 13-24): reset the streak on
"yes", increment it otherwise.  `month_year` (from `datetime.now()`) is
a parameter; the trailing `get_streak` read feeds only a log line. -/
def process_followup_response (uid : Int) (response : String) (monthYear : String)
    (tbl : List StreakRow) : List StreakRow :=
  if response == "yes" then reset_streak uid monthYear tbl
  else increment_miss uid monthYear tbl

/-- Consecutive-miss count visible for a user (0 when no row exists,
matching the code's `streak.consecutive_misses if streak else ...`
reading convention). -/
def missesOf (uid : Int) (tbl : List StreakRow) : Nat :=
  ((get_streak uid tbl).map StreakRow.consecutive_misses).getD 0

/-! ## Matching engine (`MatchingService._generate_matches`, lines 145-201)

The Python function first shuffles a copy of the subscriber list; the
`users` argument below is that already-shuffled list, so quantifying
over all input lists covers every shuffle outcome.  The only other
random choice — `random.choice(matches)` for the leftover member — is
exposed as the index parameter `k` (reduced modulo the number of
groups). -/

/-- `can_pair(u1, u2)`: the sorted id pair is not in the historical set. -/
def can_pair (hist : List (Int × Int)) (u1 u2 : User) : Bool :=
  decide (sortPair u1.user_id u2.user_id ∉ hist)

/-- The inner partner search: `for j, user2 in enumerate(users): if i == j
or user2.user_id in used: continue; if can_pair(user1, user2): partner =
user2; break`. -/
def findPartner (hist : List (Int × Int)) (users : List User) (used : List Int)
    (i : Nat) (user1 : User) : Option User :=
  (users.enum.find? (fun ju =>
    decide (ju.1 ≠ i) && decide (ju.2.user_id ∉ used) && can_pair hist user1 ju.2)).map
    Prod.snd

/-- Mutable state of the first loop of `_generate_matches`: the `used` id
set (as a list consulted only for membership), the accumulated
two-member groups, and the `unmatched` list. -/
structure GenState where
  used : List Int
  groups : List (List User)    -- Python local `matches` (a Lean keyword)
  unmatched : List User
deriving Repr

/-- One iteration of `for i, user1 in enumerate(users)`. -/
def genStep (hist : List (Int × Int)) (users : List User) (st : GenState)
    (iu : Nat × User) : GenState :=
  if iu.2.user_id ∈ st.used then st
  else
    match findPartner hist users st.used iu.1 iu.2 with
    | some partner =>
        { used := iu.2.user_id :: partner.user_id :: st.used,
          groups := st.groups ++ [[iu.2, partner]],
          unmatched := st.unmatched }
    | none => { st with unmatched := st.unmatched ++ [iu.2] }

/-- The whole first loop. -/
def phase1St (users : List User) (hist : List (Int × Int)) : GenState :=
  users.enum.foldl (genStep hist users) ⟨[], [], []⟩

/-- The drain loop `while len(unmatched) >= 2: u1 = unmatched.pop(); u2 =
unmatched.pop(); matches.append([u1, u2])`.  `list.pop()` removes from
the END, so the loop is applied here to the REVERSED unmatched list;
the returned remainder is the untouched front of the original list
(`unmatched[0]` when one member is left). -/
def drainRev : List (List User) → List User → List (List User) × List User
  | ms, u1 :: u2 :: rest => drainRev (ms ++ [[u1, u2]]) rest
  | ms, rest => (ms, rest)

/-- The final step `if len(unmatched) == 1 and matches: random_match =
random.choice(matches); random_match.append(lonely_user)`; when
`matches` is empty a single leftover member is silently dropped (the
code returns `matches` unchanged). -/
def lonelyStep : List (List User) × List User → Nat → List (List User)
  | (ms, [lonely]), k =>
      if ms.isEmpty then ms
      else ms.set (k % ms.length) (ms.getD (k % ms.length) [] ++ [lonely])
  | (ms, _), _ => ms

/-- `MatchingService._generate_matches` on the post-shuffle order `users`. -/
def generate_matches (users : List User) (hist : List (Int × Int)) (k : Nat) :
    List (List User) :=
  let st := phase1St users hist
  lonelyStep (drainRev st.groups st.unmatched.reverse) k

/-! ## Orchestrator (`MatchingService.execute_monthly_matching`, lines 16-121) -/

/-- The database state threaded through the matching trigger. -/
structure DB where
  rounds : List RoundRow
  matchRows : List MatchRow    -- the `matches` table (a Lean keyword)
  history : List HistRow
deriving DecidableEq, Repr

/-- The dict returned by `execute_monthly_matching`. -/
structure MatchResult where
  status : String
  month_year : String
  total_subscribers : Nat
  total_pairs : Nat
  dms_sent : Nat
deriving DecidableEq, Repr

/-- Observable store/notification operations, in program order, emitted by
the matching trigger.  Used to state ordering properties. -/
inductive Event where
  | createRoundAtomic (monthYear : String)
  | getCurrentRound (monthYear : String)
  | getAllSubscribers
  | getHistoricalPairs
  | generateMatches
  | updateRoundStats (roundId subs pairs : Nat)
  | createMatch (roundId : Nat) (u1 u2 : Int) (u3 : Option Int)
  | addToHistory (u1 u2 : Int)
  | sendMatchNotification (userId : Int)
  | postGroupAnnouncement
deriving DecidableEq, Repr

/-- Accumulator of the `for match_group in matches:` loop. -/
structure LoopState where
  db : DB
  events : List Event
  dms : Nat
deriving Repr

/-- One iteration of the persist/notify loop (lines 62-108): for a pair,
`create_match`, one `add_to_history`, two notifications; for a triple,
`create_match` with `user3_id`, three `add_to_history` calls in the
order (1,2), (1,3), (2,3), three notifications.  Groups of any other
size are skipped (`if len == 2 ... elif len == 3`, no else).
`notifyOk` abstracts whether `send_match_notification` reports success
for a given user (Telegram delivery). -/
def processGroup (notifyOk : Int → Bool) (today : String) (roundId : Nat)
    (st : LoopState) (g : List User) : LoopState :=
  match g with
  | [u1, u2] =>
      let cm := create_match roundId u1.user_id u2.user_id none st.db.matchRows
      let hist1 := add_to_history u1.user_id u2.user_id today roundId st.db.history
      { db := { st.db with matchRows := cm.2, history := hist1 },
        events := st.events ++
          [Event.createMatch roundId u1.user_id u2.user_id none,
           Event.addToHistory u1.user_id u2.user_id,
           Event.sendMatchNotification u1.user_id,
           Event.sendMatchNotification u2.user_id],
        dms := st.dms + (if notifyOk u1.user_id then 1 else 0) +
          (if notifyOk u2.user_id then 1 else 0) }
  | [u1, u2, u3] =>
      let cm := create_match roundId u1.user_id u2.user_id (some u3.user_id) st.db.matchRows
      let hist1 := add_to_history u1.user_id u2.user_id today roundId st.db.history
      let hist2 := add_to_history u1.user_id u3.user_id today roundId hist1
      let hist3 := add_to_history u2.user_id u3.user_id today roundId hist2
      { db := { st.db with matchRows := cm.2, history := hist3 },
        events := st.events ++
          [Event.createMatch roundId u1.user_id u2.user_id (some u3.user_id),
           Event.addToHistory u1.user_id u2.user_id,
           Event.addToHistory u1.user_id u3.user_id,
           Event.addToHistory u2.user_id u3.user_id,
           Event.sendMatchNotification u1.user_id,
           Event.sendMatchNotification u2.user_id,
           Event.sendMatchNotification u3.user_id],
        dms := st.dms + (if notifyOk u1.user_id then 1 else 0) +
          (if notifyOk u2.user_id then 1 else 0) +
          (if notifyOk u3.user_id then 1 else 0) }
  | _ => st

/-- `MatchingService.execute_monthly_matching`.  Parameters: `monthYear` /
`today` stand for the `datetime.now()` reads, `subscribers` is the
roster returned by `get_all_subscribers`, `shuffled` is that roster in
post-`random.shuffle` order, `k` resolves `random.choice`, `notifyOk`
abstracts notification delivery.  Returns the result dict, the store
state, and the emitted event trace. -/
def execute_monthly_matching (monthYear today : String)
    (subscribers shuffled : List User) (k : Nat) (notifyOk : Int → Bool)
    (db : DB) : MatchResult × DB × List Event :=
  let cr := create_round_atomic monthYear db.rounds
  match cr.1 with
  | none =>
      -- Round already exists: fetch it and report `already_done` with its
      -- stored stats (the Python attribute reads would fail were the row
      -- absent, which cannot happen when the atomic insert was ignored).
      let existing := get_current_round monthYear cr.2
      (⟨"already_done", monthYear,
        (existing.map RoundRow.total_subscribers).getD 0,
        (existing.map RoundRow.total_pairs).getD 0, 0⟩,
       { db with rounds := cr.2 },
       [Event.createRoundAtomic monthYear, Event.getCurrentRound monthYear])
  | some r =>
      let db1 : DB := { db with rounds := cr.2 }
      if subscribers.length < 2 then
        (⟨"not_enough", monthYear, subscribers.length, 0, 0⟩,
         { db1 with rounds := update_round_stats r.id subscribers.length 0 db1.rounds },
         [Event.createRoundAtomic monthYear, Event.getAllSubscribers,
          Event.updateRoundStats r.id subscribers.length 0])
      else
        let hist := get_historical_pairs db1.history
        let groups := generate_matches shuffled hist k
        let rounds2 := update_round_stats r.id subscribers.length groups.length db1.rounds
        let initEv := [Event.createRoundAtomic monthYear, Event.getAllSubscribers,
          Event.getHistoricalPairs, Event.generateMatches,
          Event.updateRoundStats r.id subscribers.length groups.length]
        let fin := groups.foldl (processGroup notifyOk today r.id)
          ⟨{ db1 with rounds := rounds2 }, initEv, 0⟩
        (⟨"success", monthYear, subscribers.length, groups.length, fin.dms⟩,
         fin.db,
         fin.events ++ [Event.postGroupAnnouncement])

/-- The event block the persist/notify loop emits for one group
(specification-side description of the per-group order: persist the
Group, record its HistoricalPairs, notify its members). -/
def groupEventBlock (roundId : Nat) (g : List User) : List Event :=
  match g with
  | [u1, u2] =>
      [Event.createMatch roundId u1.user_id u2.user_id none,
       Event.addToHistory u1.user_id u2.user_id,
       Event.sendMatchNotification u1.user_id,
       Event.sendMatchNotification u2.user_id]
  | [u1, u2, u3] =>
      [Event.createMatch roundId u1.user_id u2.user_id (some u3.user_id),
       Event.addToHistory u1.user_id u2.user_id,
       Event.addToHistory u1.user_id u3.user_id,
       Event.addToHistory u2.user_id u3.user_id,
       Event.sendMatchNotification u1.user_id,
       Event.sendMatchNotification u2.user_id,
       Event.sendMatchNotification u3.user_id]
  | _ => []

/-- Discriminator: is this event the round-stats finalisation? -/
def isUpdateRoundStats : Event → Bool
  | Event.updateRoundStats _ _ _ => true
  | _ => false

/-- Discriminator: is this event a Group persist? -/
def isCreateMatch : Event → Bool
  | Event.createMatch _ _ _ _ => true
  | _ => false

/-- A member record carrying only an id, for concrete test inputs. -/
def mkUser (i : Int) : User :=
  { user_id := i, is_subscribed := true }

/-- Row-wise frame relation for re-sending a follow-up question to
(`mid`, `uid`) at time `now`: every row keeps its key and its recorded
response; a row for the key gets `question_sent_at := now`; any other
row is untouched. -/
def FrameRel (mid : Nat) (uid : Int) (now : Nat) (r r' : FURow) : Prop :=
  r'.match_id = r.match_id ∧ r'.user_id = r.user_id ∧
  r'.response = r.response ∧ r'.responded_at = r.responded_at ∧
  ((r.match_id = mid ∧ r.user_id = uid) → r'.question_sent_at = now) ∧
  (¬(r.match_id = mid ∧ r.user_id = uid) → r' = r)

/-- Loop invariant of the first pass of `_generate_matches`, over the
processed prefix `P` of the (shuffled) member list.  `used` ids are
exactly the ids appearing in the accumulated groups (once each);
unmatched members come from the prefix, are pairwise distinct, are not
used, and — the key fact — are historically blocked against every
still-unused member other than themselves, so no later iteration can
pick them as a partner. -/
structure Inv (users : List User) (hist : List (Int × Int)) (P : List User)
    (st : GenState) : Prop where
  used_nodup : st.used.Nodup
  join_perm : (st.groups.flatten.map User.user_id).Perm st.used
  join_sub : ∀ u ∈ st.groups.flatten, u ∈ users
  unm_sub : ∀ u ∈ st.unmatched, u ∈ P
  unm_nodup : (st.unmatched.map User.user_id).Nodup
  unm_unused : ∀ u ∈ st.unmatched, u.user_id ∉ st.used
  processed : ∀ w ∈ P, w.user_id ∈ st.used ∨ w ∈ st.unmatched
  blocked : ∀ u ∈ st.unmatched, ∀ w ∈ users, w.user_id ∉ st.used →
      w.user_id = u.user_id ∨ sortPair u.user_id w.user_id ∈ hist
  pair_shape : ∀ g ∈ st.groups, ∃ a b, g = [a, b]

/-! ## General helper lemmas -/

theorem map_fix {α : Type} (f : α → α) :
    ∀ (l : List α), (∀ x ∈ l, f x = x) → l.map f = l
  | [], _ => rfl
  | a :: tl, h => by
      rw [List.map_cons, h a (List.mem_cons_self a tl),
        map_fix f tl (fun x hx => h x (List.mem_cons_of_mem a hx))]

theorem sortPair_comm (a b : Int) : sortPair a b = sortPair b a := by
  unfold sortPair
  rcases lt_trichotomy a b with h | h | h
  · rw [if_neg (by omega), if_pos (by omega)]
  · subst h; rfl
  · rw [if_pos (by omega), if_neg (by omega)]

/-! ## History store (C2, C9) -/

/-- Claim C2 as stated is false on the code: recording the pair {1, 2}
twice — once as (1, 2), once as (2, 1) — leaves TWO `match_history`
rows for the normalised key (1, 2), because the table has no UNIQUE
constraint on the pair columns and `INSERT OR IGNORE` therefore always
inserts. -/
theorem add_to_history_duplicate_rows :
    countPair 1 2 (add_to_history 2 1 "2025-01-01" 7
      (add_to_history 1 2 "2025-01-01" 7 [])) = 2 := by decide

/-- Claim C9: `have_been_matched` is symmetric in its two member ids, for
every state of the history table, because both orders are normalised by
the same sort before the lookup. -/
theorem have_been_matched_symm (a b : Int) (tbl : List HistRow) :
    have_been_matched a b tbl = have_been_matched b a tbl := by
  unfold have_been_matched
  rw [sortPair_comm]

/-! ## Follow-ups (C7, C10) -/

/-- Claim C7 as stated is false on the code: `record_response` is a plain
UPDATE, not an upsert.  Called on a store with no FollowUp row for
(match 1, member 1), it writes nothing and afterwards no row for that
key exists. -/
theorem record_response_no_upsert :
    ¬ ∃ r ∈ record_response 1 1 "yes" 7 ([] : List FURow),
        r.match_id = 1 ∧ r.user_id = 1 := by decide

/-- Claim C7 amended: when a FollowUp row for (group, member) exists,
`record_response` overwrites its response and responded_at with the
given values (last write wins) and a row for the key remains; when no
such row exists, the call leaves the store unchanged (no insert). -/
theorem record_response_update (tbl : List FURow) (mid : Nat) (uid : Int)
    (resp : String) (now : Nat) :
    ((∃ r ∈ tbl, r.match_id = mid ∧ r.user_id = uid) →
      (∃ r ∈ record_response mid uid resp now tbl,
          r.match_id = mid ∧ r.user_id = uid ∧ r.response = some resp ∧
          r.responded_at = some now) ∧
      (∀ r ∈ record_response mid uid resp now tbl,
          r.match_id = mid → r.user_id = uid →
          r.response = some resp ∧ r.responded_at = some now)) ∧
    ((¬ ∃ r ∈ tbl, r.match_id = mid ∧ r.user_id = uid) →
      record_response mid uid resp now tbl = tbl) := by
  constructor
  · rintro ⟨r, hr, hm, hu⟩
    have hb : (r.match_id == mid && r.user_id == uid) = true := by simp [hm, hu]
    constructor
    · refine ⟨_, List.mem_map_of_mem _ hr, ?_⟩
      simp [hb, hm, hu]
    · intro r' hr' hm' hu'
      obtain ⟨r0, hr0, hfr0⟩ := List.mem_map.mp hr'
      by_cases hb0 : (r0.match_id == mid && r0.user_id == uid) = true
      · rw [← hfr0]
        simp [hb0]
      · have hr0' : r' = r0 := by rw [← hfr0]; simp [hb0]
        subst hr0'
        exact absurd (by simp [hm', hu']) hb0
  · intro hno
    unfold record_response
    apply map_fix
    intro r hr
    have hb : (r.match_id == mid && r.user_id == uid) = false := by
      by_contra hc
      have : (r.match_id == mid && r.user_id == uid) = true := by
        revert hc; cases (r.match_id == mid && r.user_id == uid) <;> simp
      simp only [Bool.and_eq_true, beq_iff_eq] at this
      exact hno ⟨r, hr, this.1, this.2⟩
    simp [hb]

/-- Witness for the amended C7 at a concrete store. -/
theorem record_response_update_witness :
    ∃ r ∈ record_response 5 2 "yes" 9 [(⟨1, 5, 2, 3, none, none⟩ : FURow)],
        r.match_id = 5 ∧ r.user_id = 2 ∧ r.response = some "yes" ∧
        r.responded_at = some 9 :=
  ((record_response_update [⟨1, 5, 2, 3, none, none⟩] 5 2 "yes" 9).1 (by decide)).1

/-- Claim C10: re-sending a follow-up question for a (match, member) that
already has a FollowUp row only refreshes `question_sent_at`; the
stored response and responded_at (and the key) are untouched, row for
row, and no row is added or removed (`Forall₂` pairs the tables
positionally). -/
theorem create_followup_frame (tbl : List FURow) (mid : Nat) (uid : Int) (now : Nat)
    (h : ∃ r ∈ tbl, r.match_id = mid ∧ r.user_id = uid) :
    List.Forall₂ (FrameRel mid uid now) tbl (create_followup mid uid now tbl) := by
  obtain ⟨r0, hr0, hm0, hu0⟩ := h
  have hany : tbl.any (fun r => r.match_id == mid && r.user_id == uid) = true :=
    List.any_eq_true.mpr ⟨r0, hr0, by simp [hm0, hu0]⟩
  unfold create_followup
  rw [if_pos hany, List.forall₂_map_right_iff, List.forall₂_same]
  intro r hr
  by_cases hb : (r.match_id == mid && r.user_id == uid) = true
  · have hkey : r.match_id = mid ∧ r.user_id = uid := by
      simpa [Bool.and_eq_true, beq_iff_eq] using hb
    refine ⟨?_, ?_, ?_, ?_, fun _ => ?_, fun hc => absurd hkey hc⟩ <;> simp [hb]
  · have hkey : ¬(r.match_id = mid ∧ r.user_id = uid) := by
      intro hc
      exact absurd (by simp [hc.1, hc.2]) hb
    refine ⟨?_, ?_, ?_, ?_, fun hc => absurd hc hkey, fun _ => ?_⟩ <;> simp [hb]

/-- Witness for C10 at a concrete store holding a recorded "yes". -/
theorem create_followup_frame_witness :
    List.Forall₂ (FrameRel 5 2 9) [(⟨1, 5, 2, 3, some "yes", some 6⟩ : FURow)]
      (create_followup 5 2 9 [(⟨1, 5, 2, 3, some "yes", some 6⟩ : FURow)]) :=
  create_followup_frame [⟨1, 5, 2, 3, some "yes", some 6⟩] 5 2 9 (by decide)

/-! ## Streaks (C8) -/

/-- Claim C8 as stated is false on the code: processing "no" twice in the
same period "2025-01" from an empty streak store leaves the counter at
2, not at most 1 — `increment_miss` has no period-key guard. -/
theorem double_no_double_increment :
    ¬ (missesOf 1 (process_followup_response 1 "no" "2025-01"
        (process_followup_response 1 "no" "2025-01" [])) ≤ 1) := by decide

theorem get_streak_increment (uid : Int) (m : String) :
    ∀ tbl : List StreakRow,
      get_streak uid (increment_miss uid m tbl) =
        some ⟨uid, missesOf uid tbl + 1, m⟩ := by
  intro tbl
  induction tbl with
  | nil => simp [increment_miss, get_streak, missesOf]
  | cons r tl ih =>
      by_cases hr : r.user_id = uid
      · have hb : (r.user_id == uid) = true := by simp [hr]
        simp [increment_miss, get_streak, missesOf, List.any_cons, hb, hr]
      · have hb : (r.user_id == uid) = false := by simp [hr]
        have hstep : increment_miss uid m (r :: tl) = r :: increment_miss uid m tl := by
          by_cases ha : tl.any (fun x => x.user_id == uid) = true
          · simp [increment_miss, List.any_cons, hb, ha, hr]
          · simp only [Bool.not_eq_true] at ha
            simp [increment_miss, List.any_cons, hb, ha, hr]
        rw [hstep]
        have h1 : get_streak uid (r :: increment_miss uid m tl) =
            get_streak uid (increment_miss uid m tl) := by
          simp [get_streak, List.find?_cons_of_neg, hb]
        have h2 : missesOf uid (r :: tl) = missesOf uid tl := by
          simp [missesOf, get_streak, List.find?_cons_of_neg, hb]
        rw [h1, h2, ih]

/-- Claim C8 amended: each processed "no" unconditionally increments the
member's consecutive-miss counter by exactly 1 and overwrites the
stored period key — there is NO period guard, so re-processing the same
period increments again. -/
theorem process_no_increments (uid : Int) (m : String) (tbl : List StreakRow) :
    get_streak uid (process_followup_response uid "no" m tbl) =
      some ⟨uid, missesOf uid tbl + 1, m⟩ := by
  have hne : (("no" : String) == "yes") = false := by decide
  simp only [process_followup_response, hne, Bool.false_eq_true, if_false]
  exact get_streak_increment uid m tbl

/-! ## Round idempotency (C1) -/

/-- Claim C1: when a round for the period key already exists, a second
invocation of the matching trigger returns the `already_done` status
carrying the existing round's stored stats, leaves the entire store
(rounds, matches, history) unchanged, and its trace holds only the
ignored atomic insert and the re-read — no matching, no history writes,
no notifications, no stats update. -/
theorem execute_already_done (monthYear today : String) (subs shuffled : List User)
    (k : Nat) (notifyOk : Int → Bool) (db : DB) (r : RoundRow)
    (h : get_current_round monthYear db.rounds = some r) :
    execute_monthly_matching monthYear today subs shuffled k notifyOk db =
      (⟨"already_done", monthYear, r.total_subscribers, r.total_pairs, 0⟩, db,
       [Event.createRoundAtomic monthYear, Event.getCurrentRound monthYear]) := by
  have h' : db.rounds.find? (fun x => x.month_year == monthYear) = some r := h
  have hmemr := List.mem_of_find?_eq_some h'
  have hpredr := List.find?_some h'
  have hany : db.rounds.any (fun x => x.month_year == monthYear) = true :=
    List.any_eq_true.mpr ⟨r, hmemr, hpredr⟩
  have hcr : create_round_atomic monthYear db.rounds = (none, db.rounds) := by
    unfold create_round_atomic
    rw [if_pos hany]
  unfold execute_monthly_matching
  rw [hcr]
  simp [get_current_round] at h
  simp [get_current_round, h]

/-- Witness for C1: with a stored round ("2025-01", 5 subscribers,
2 pairs), a retried trigger reports `already_done` with those stats and
changes nothing. -/
theorem execute_already_done_witness :
    execute_monthly_matching "2025-01" "2025-01-15" [mkUser 1, mkUser 2, mkUser 3]
        [mkUser 3, mkUser 1, mkUser 2] 4 (fun _ => false)
        ⟨[⟨1, "2025-01", 5, 2⟩], [], []⟩ =
      (⟨"already_done", "2025-01", 5, 2, 0⟩,
       ⟨[⟨1, "2025-01", 5, 2⟩], [], []⟩,
       [Event.createRoundAtomic "2025-01", Event.getCurrentRound "2025-01"]) :=
  execute_already_done "2025-01" "2025-01-15" [mkUser 1, mkUser 2, mkUser 3]
    [mkUser 3, mkUser 1, mkUser 2] 4 (fun _ => false)
    ⟨[⟨1, "2025-01", 5, 2⟩], [], []⟩ ⟨1, "2025-01", 5, 2⟩ (by decide)

/-! ## Step ordering of the matching trigger (C6) -/

theorem foldl_processGroup_events (notifyOk : Int → Bool) (today : String)
    (roundId : Nat) :
    ∀ (gs : List (List User)) (st : LoopState),
      (gs.foldl (processGroup notifyOk today roundId) st).events =
        st.events ++ (gs.map (groupEventBlock roundId)).flatten := by
  intro gs
  induction gs with
  | nil => intro st; simp
  | cons g tl ih =>
      intro st
      rw [List.foldl_cons, ih]
      have hone : (processGroup notifyOk today roundId st g).events =
          st.events ++ groupEventBlock roundId g := by
        rcases g with _ | ⟨a, _ | ⟨b, _ | ⟨c, _ | ⟨d, t⟩⟩⟩⟩ <;>
          simp [processGroup, groupEventBlock]
      rw [List.map_cons, List.flatten_cons, hone, List.append_assoc]

/-- Claim C6 as stated is false on the code: in a successful run with two
subscribers, the round-stats update appears in the trace strictly
BEFORE the first Group persist (index 4 versus index 5), whereas the
claim requires stats to be finalized only after Groups and
HistoricalPairs are persisted. -/
theorem stats_finalized_before_persist :
    (execute_monthly_matching "2025-01" "2025-01-01" [mkUser 1, mkUser 2]
        [mkUser 1, mkUser 2] 0 (fun _ => true) ⟨[], [], []⟩).1.status = "success" ∧
    (execute_monthly_matching "2025-01" "2025-01-01" [mkUser 1, mkUser 2]
        [mkUser 1, mkUser 2] 0 (fun _ => true)
        ⟨[], [], []⟩).2.2.findIdx isUpdateRoundStats <
      (execute_monthly_matching "2025-01" "2025-01-01" [mkUser 1, mkUser 2]
        [mkUser 1, mkUser 2] 0 (fun _ => true)
        ⟨[], [], []⟩).2.2.findIdx isCreateMatch := by decide

/-- Claim C6 amended: in every successful run with at least 2 subscribers
the trace is exactly — begin_round, roster fetch, history fetch,
matching engine, round-stats finalisation, then for each Group in
order its persist followed by its HistoricalPair records followed by
its member notifications, and the group-channel summary last.  In
particular the stats are finalized BEFORE (not after) Groups and
HistoricalPairs are persisted. -/
theorem execute_success_order (monthYear today : String) (subs shuffled : List User)
    (k : Nat) (notifyOk : Int → Bool) (db : DB)
    (hfresh : ∀ r ∈ db.rounds, r.month_year ≠ monthYear)
    (hlen : 2 ≤ subs.length) :
    (execute_monthly_matching monthYear today subs shuffled k notifyOk db).1.status =
      "success" ∧
    (execute_monthly_matching monthYear today subs shuffled k notifyOk db).2.2 =
      [Event.createRoundAtomic monthYear, Event.getAllSubscribers,
       Event.getHistoricalPairs, Event.generateMatches,
       Event.updateRoundStats (db.rounds.length + 1) subs.length
         (generate_matches shuffled (get_historical_pairs db.history) k).length] ++
      ((generate_matches shuffled (get_historical_pairs db.history) k).map
        (groupEventBlock (db.rounds.length + 1))).flatten ++
      [Event.postGroupAnnouncement] := by
  have hany : db.rounds.any (fun x => x.month_year == monthYear) = false := by
    rw [List.any_eq_false]
    intro r hr
    simp [hfresh r hr]
  have hcr : create_round_atomic monthYear db.rounds =
      (some ⟨db.rounds.length + 1, monthYear, 0, 0⟩,
       db.rounds ++ [⟨db.rounds.length + 1, monthYear, 0, 0⟩]) := by
    unfold create_round_atomic
    rw [if_neg (by simp [hany])]
  have hnl : ¬ subs.length < 2 := by omega
  unfold execute_monthly_matching
  rw [hcr]
  simp only [if_neg hnl]
  refine ⟨by trivial, ?_⟩
  rw [foldl_processGroup_events]

/-- Witness for the amended C6 at a concrete two-member run. -/
theorem execute_success_order_witness :
    (execute_monthly_matching "2025-02" "2025-02-01" [mkUser 1, mkUser 2]
        [mkUser 1, mkUser 2] 0 (fun _ => true) ⟨[], [], []⟩).1.status = "success" ∧
    (execute_monthly_matching "2025-02" "2025-02-01" [mkUser 1, mkUser 2]
        [mkUser 1, mkUser 2] 0 (fun _ => true) ⟨[], [], []⟩).2.2 =
      [Event.createRoundAtomic "2025-02", Event.getAllSubscribers,
       Event.getHistoricalPairs, Event.generateMatches,
       Event.updateRoundStats 1 2
         (generate_matches [mkUser 1, mkUser 2] (get_historical_pairs []) 0).length] ++
      ((generate_matches [mkUser 1, mkUser 2] (get_historical_pairs []) 0).map
        (groupEventBlock 1)).flatten ++
      [Event.postGroupAnnouncement] :=
  execute_success_order "2025-02" "2025-02-01" [mkUser 1, mkUser 2]
    [mkUser 1, mkUser 2] 0 (fun _ => true) ⟨[], [], []⟩ (by decide) (by decide)

/-! ## Matching engine: partition and group-size facts (C3, C4, C5) -/

theorem findPartner_some_spec {hist : List (Int × Int)} {users : List User}
    {used : List Int} {i : Nat} {u1 p : User}
    (hfp : findPartner hist users used i u1 = some p) :
    ∃ j, (j, p) ∈ users.enum ∧ j ≠ i ∧ p.user_id ∉ used ∧
      sortPair u1.user_id p.user_id ∉ hist := by
  unfold findPartner at hfp
  rw [Option.map_eq_some'] at hfp
  obtain ⟨⟨j, q⟩, hfind, hq⟩ := hfp
  have hq' : q = p := hq
  subst hq'
  have hmem := List.mem_of_find?_eq_some hfind
  have hpred := List.find?_some hfind
  simp only [can_pair, Bool.and_eq_true, decide_eq_true_eq] at hpred
  exact ⟨j, hmem, hpred.1.1, hpred.1.2, hpred.2⟩

theorem findPartner_none_spec {hist : List (Int × Int)} {users : List User}
    {used : List Int} {i : Nat} {u1 : User}
    (hfp : findPartner hist users used i u1 = none) :
    ∀ j w, (j, w) ∈ users.enum → j ≠ i → w.user_id ∉ used →
      sortPair u1.user_id w.user_id ∈ hist := by
  unfold findPartner at hfp
  rw [Option.map_eq_none'] at hfp
  rw [List.find?_eq_none] at hfp
  intro j w hmem hj hw
  have h := hfp (j, w) hmem
  simp only [can_pair, Bool.and_eq_true, decide_eq_true_eq] at h
  by_contra hnotin
  exact h ⟨⟨hj, hw⟩, hnotin⟩

theorem genStep_inv {users : List User} {hist : List (Int × Int)}
    (hnd : (users.map User.user_id).Nodup)
    {ps tl : List (Nat × User)} {i : Nat} {u1 : User} {st : GenState}
    (hsplit : users.enum = ps ++ (i, u1) :: tl)
    (hinv : Inv users hist (ps.map Prod.snd) st) :
    Inv users hist (ps.map Prod.snd ++ [u1]) (genStep hist users st (i, u1)) := by
  have husers : users.Nodup := List.Nodup.of_map _ hnd
  have husers_eq : users = ps.map Prod.snd ++ u1 :: tl.map Prod.snd := by
    have h := congrArg (List.map Prod.snd) hsplit
    rw [List.enum_map_snd] at h
    simpa using h
  have hmemi : (i, u1) ∈ users.enum := by
    rw [hsplit]; exact List.mem_append_right _ (List.mem_cons_self _ _)
  have hu1 : u1 ∈ users := by
    rw [husers_eq]; exact List.mem_append_right _ (List.mem_cons_self _ _)
  have hu1P : u1 ∉ ps.map Prod.snd := by
    have h := husers
    rw [husers_eq] at h
    rcases List.nodup_append.mp h with ⟨-, -, hdisj⟩
    intro hmem
    exact hdisj hmem (List.mem_cons_self _ _)
  have hPsub : ∀ w ∈ ps.map Prod.snd, w ∈ users := by
    intro w hw; rw [husers_eq]; exact List.mem_append_left _ hw
  have hinj : ∀ x ∈ users, ∀ y ∈ users, x.user_id = y.user_id → x = y := by
    intro x hx y hy hxy
    exact List.inj_on_of_nodup_map hnd hx hy hxy
  have hsnd_nodup : (users.enum.map Prod.snd).Nodup := by
    rw [List.enum_map_snd]; exact husers
  have hsnd_inj : ∀ x ∈ users.enum, ∀ y ∈ users.enum, x.2 = y.2 → x = y := by
    intro x hx y hy h
    exact List.inj_on_of_nodup_map hsnd_nodup hx hy h
  have hfst_inj : ∀ x ∈ users.enum, ∀ y ∈ users.enum, x.1 = y.1 → x = y := by
    intro x hx y hy h
    exact List.inj_on_of_nodup_map (List.nodup_enum_map_fst users) hx hy h
  by_cases hused : u1.user_id ∈ st.used
  · have hred : genStep hist users st (i, u1) = st := by
      unfold genStep; rw [if_pos hused]
    rw [hred]
    refine ⟨hinv.used_nodup, hinv.join_perm, hinv.join_sub, ?_, hinv.unm_nodup,
      hinv.unm_unused, ?_, hinv.blocked, hinv.pair_shape⟩
    · intro u hu; exact List.mem_append_left _ (hinv.unm_sub u hu)
    · intro w hw
      rcases List.mem_append.mp hw with hw | hw
      · exact hinv.processed w hw
      · have hw1 : w = u1 := List.mem_singleton.mp hw
        subst hw1
        exact Or.inl hused
  · cases hfp : findPartner hist users st.used i u1 with
    | none =>
        have hred : genStep hist users st (i, u1) =
            { st with unmatched := st.unmatched ++ [u1] } := by
          unfold genStep; rw [if_neg hused, hfp]
        rw [hred]
        have hnone := findPartner_none_spec hfp
        refine ⟨hinv.used_nodup, hinv.join_perm, hinv.join_sub, ?_, ?_, ?_, ?_, ?_,
          hinv.pair_shape⟩
        · intro u hu
          rcases List.mem_append.mp hu with hu | hu
          · exact List.mem_append_left _ (hinv.unm_sub u hu)
          · have hu1' : u = u1 := List.mem_singleton.mp hu
            subst hu1'
            exact List.mem_append_right _ (List.mem_cons_self _ _)
        · rw [List.map_append, List.nodup_append]
          refine ⟨hinv.unm_nodup, List.nodup_singleton _, ?_⟩
          intro a ha hb
          obtain ⟨u, hu, rfl⟩ := List.mem_map.mp ha
          have hb' : u.user_id = u1.user_id := by simpa using hb
          have heq : u = u1 := hinj u (hPsub u (hinv.unm_sub u hu)) u1 hu1 hb'
          subst heq
          exact hu1P (hinv.unm_sub _ hu)
        · intro u hu
          rcases List.mem_append.mp hu with hu | hu
          · exact hinv.unm_unused u hu
          · have hu1' : u = u1 := List.mem_singleton.mp hu
            subst hu1'
            exact hused
        · intro w hw
          rcases List.mem_append.mp hw with hw | hw
          · rcases hinv.processed w hw with h | h
            · exact Or.inl h
            · exact Or.inr (List.mem_append_left _ h)
          · have hw1 : w = u1 := List.mem_singleton.mp hw
            subst hw1
            exact Or.inr (List.mem_append_right _ (List.mem_cons_self _ _))
        · intro u hu w hw hwu
          rcases List.mem_append.mp hu with hu | hu
          · exact hinv.blocked u hu w hw hwu
          · have hu1' : u = u1 := List.mem_singleton.mp hu
            subst hu1'
            have hw' : w ∈ users.enum.map Prod.snd := by
              rw [List.enum_map_snd]; exact hw
            obtain ⟨⟨j, w'⟩, hjw, hw'eq⟩ := List.mem_map.mp hw'
            have hww : w' = w := hw'eq
            subst hww
            by_cases hj : j = i
            · subst hj
              have heq := hfst_inj _ hjw _ hmemi rfl
              have hwu1 : w' = Prod.snd (j, w') := rfl
              rw [heq] at hwu1
              exact Or.inl (by rw [hwu1])
            · exact Or.inr (hnone j w' hjw hj hwu)
    | some p =>
        have hred : genStep hist users st (i, u1) =
            { used := u1.user_id :: p.user_id :: st.used,
              groups := st.groups ++ [[u1, p]],
              unmatched := st.unmatched } := by
          unfold genStep; rw [if_neg hused, hfp]
        rw [hred]
        obtain ⟨j, hjp, hji, hpu, hcp⟩ := findPartner_some_spec hfp
        have hp : p ∈ users := by
          have h := List.mem_map_of_mem Prod.snd hjp
          rwa [List.enum_map_snd] at h
        have hpne : p ≠ u1 := by
          intro h; subst h
          have heq : ((j : Nat), p) = (i, p) := hsnd_inj _ hjp _ hmemi rfl
          exact hji (congrArg Prod.fst heq)
        have hpid : p.user_id ≠ u1.user_id := by
          intro h
          exact hpne (hinj p hp u1 hu1 h)
        have hpunm : p ∉ st.unmatched := by
          intro hpin
          rcases hinv.blocked p hpin u1 hu1 hused with h | h
          · exact hpid h.symm
          · rw [sortPair_comm] at h
            exact hcp h
        refine ⟨?_, ?_, ?_, ?_, hinv.unm_nodup, ?_, ?_, ?_, ?_⟩
        · refine List.nodup_cons.mpr ⟨?_, List.nodup_cons.mpr ⟨hpu, hinv.used_nodup⟩⟩
          intro hmem
          rcases List.mem_cons.mp hmem with h | h
          · exact hpid h.symm
          · exact hused h
        · rw [List.flatten_append]
          simp only [List.flatten_cons, List.flatten_nil, List.append_nil,
            List.map_append, List.map_cons, List.map_nil]
          refine List.Perm.trans (hinv.join_perm.append_right _) ?_
          exact List.perm_append_comm
        · intro u hu
          rw [List.flatten_append] at hu
          rcases List.mem_append.mp hu with hu | hu
          · exact hinv.join_sub u hu
          · simp only [List.flatten_cons, List.flatten_nil, List.append_nil] at hu
            rcases List.mem_cons.mp hu with h | h
            · subst h; exact hu1
            · have hup : u = p := List.mem_singleton.mp h
              subst hup; exact hp
        · intro u hu; exact List.mem_append_left _ (hinv.unm_sub u hu)
        · intro u hu
          have h1 : u.user_id ∉ st.used := hinv.unm_unused u hu
          have hu_users : u ∈ users := hPsub u (hinv.unm_sub u hu)
          have hne1 : u.user_id ≠ u1.user_id := by
            intro h
            have heq : u = u1 := hinj u hu_users u1 hu1 h
            subst heq
            exact hu1P (hinv.unm_sub _ hu)
          have hnep : u.user_id ≠ p.user_id := by
            intro h
            have heq : u = p := hinj u hu_users p hp h
            subst heq
            exact hpunm hu
          intro hmem
          rcases List.mem_cons.mp hmem with h | h
          · exact hne1 h
          · rcases List.mem_cons.mp h with h | h
            · exact hnep h
            · exact h1 h
        · intro w hw
          rcases List.mem_append.mp hw with hw | hw
          · rcases hinv.processed w hw with h | h
            · exact Or.inl (List.mem_cons_of_mem _ (List.mem_cons_of_mem _ h))
            · exact Or.inr h
          · have hw1 : w = u1 := List.mem_singleton.mp hw
            subst hw1
            exact Or.inl (List.mem_cons_self _ _)
        · intro u hu w hw hwu
          have hwu' : w.user_id ∉ st.used := by
            intro h
            exact hwu (List.mem_cons_of_mem _ (List.mem_cons_of_mem _ h))
          exact hinv.blocked u hu w hw hwu'
        · intro g hg
          rcases List.mem_append.mp hg with hg | hg
          · exact hinv.pair_shape g hg
          · have hgp : g = [u1, p] := List.mem_singleton.mp hg
            exact ⟨u1, p, hgp⟩

theorem foldl_genStep_inv {users : List User} {hist : List (Int × Int)}
    (hnd : (users.map User.user_id).Nodup) :
    ∀ (rest ps : List (Nat × User)) (st : GenState),
      users.enum = ps ++ rest →
      Inv users hist (ps.map Prod.snd) st →
      Inv users hist users (rest.foldl (genStep hist users) st) := by
  intro rest
  induction rest with
  | nil =>
      intro ps st hsplit hinv
      have hps : ps = users.enum := by simpa using hsplit.symm
      have hmap : ps.map Prod.snd = users := by rw [hps, List.enum_map_snd]
      rw [List.foldl_nil]
      rwa [hmap] at hinv
  | cons hd tl ih =>
      intro ps st hsplit hinv
      rw [List.foldl_cons]
      have hsp2 : users.enum = ps ++ (hd.1, hd.2) :: tl := by simpa using hsplit
      have hstep := genStep_inv hnd hsp2 hinv
      have hsplit' : users.enum = (ps ++ [hd]) ++ tl := by
        rw [hsplit, List.append_assoc]; rfl
      have hmap : (ps ++ [hd]).map Prod.snd = ps.map Prod.snd ++ [hd.2] := by simp
      refine ih (ps ++ [hd]) _ hsplit' ?_
      rw [hmap]
      exact hstep

theorem phase1_props (users : List User) (hist : List (Int × Int))
    (hnd : (users.map User.user_id).Nodup) :
    users.Perm ((phase1St users hist).groups.flatten ++ (phase1St users hist).unmatched) ∧
    (∀ g ∈ (phase1St users hist).groups, ∃ a b, g = [a, b]) := by
  have h0 : Inv users hist (([] : List (Nat × User)).map Prod.snd)
      (⟨[], [], []⟩ : GenState) := by
    refine ⟨List.nodup_nil, ?_, ?_, ?_, ?_, ?_, ?_, ?_, ?_⟩ <;> simp
  have hinv : Inv users hist users (phase1St users hist) :=
    foldl_genStep_inv hnd users.enum [] ⟨[], [], []⟩ (by simp) h0
  have husers : users.Nodup := List.Nodup.of_map _ hnd
  have hjoin_used : ∀ a : Int,
      a ∈ (phase1St users hist).groups.flatten.map User.user_id ↔
        a ∈ (phase1St users hist).used :=
    fun a => hinv.join_perm.mem_iff
  have hmap_nodup :
      (((phase1St users hist).groups.flatten ++
        (phase1St users hist).unmatched).map User.user_id).Nodup := by
    rw [List.map_append, List.nodup_append]
    refine ⟨(hinv.join_perm.nodup_iff).mpr hinv.used_nodup, hinv.unm_nodup, ?_⟩
    intro a ha hb
    obtain ⟨u, hu, rfl⟩ := List.mem_map.mp hb
    exact hinv.unm_unused u hu ((hjoin_used u.user_id).mp ha)
  have hlist_nodup :
      ((phase1St users hist).groups.flatten ++ (phase1St users hist).unmatched).Nodup :=
    List.Nodup.of_map _ hmap_nodup
  have hinj : ∀ x ∈ users, ∀ y ∈ users, x.user_id = y.user_id → x = y := by
    intro x hx y hy hxy; exact List.inj_on_of_nodup_map hnd hx hy hxy
  have hmem : ∀ a : User,
      a ∈ users ↔
        a ∈ (phase1St users hist).groups.flatten ++ (phase1St users hist).unmatched := by
    intro a
    constructor
    · intro ha
      rcases hinv.processed a ha with h | h
      · have hmm : a.user_id ∈ (phase1St users hist).groups.flatten.map User.user_id :=
          (hjoin_used _).mpr h
        obtain ⟨y, hy, hya⟩ := List.mem_map.mp hmm
        have hy' : y = a := hinj y (hinv.join_sub y hy) a ha hya
        exact List.mem_append_left _ (hy' ▸ hy)
      · exact List.mem_append_right _ h
    · intro ha
      rcases List.mem_append.mp ha with h | h
      · exact hinv.join_sub a h
      · exact hinv.unm_sub a h
  exact ⟨(List.perm_ext_iff_of_nodup husers hlist_nodup).mpr hmem, hinv.pair_shape⟩

theorem drainRev_spec : ∀ (us : List User) (ms : List (List User)),
    (drainRev ms us).1.flatten ++ (drainRev ms us).2 = ms.flatten ++ us ∧
    (drainRev ms us).2.length = us.length % 2 ∧
    (∀ g ∈ (drainRev ms us).1, g ∈ ms ∨ ∃ a b, g = [a, b]) ∧
    ((drainRev ms us).1 = [] → ms = [])
  | [], ms => by
      refine ⟨by simp [drainRev], by simp [drainRev], ?_, ?_⟩
      · intro g hg
        exact Or.inl (by simpa [drainRev] using hg)
      · intro h
        simpa [drainRev] using h
  | [u], ms => by
      refine ⟨by simp [drainRev], by simp [drainRev], ?_, ?_⟩
      · intro g hg
        exact Or.inl (by simpa [drainRev] using hg)
      · intro h
        simpa [drainRev] using h
  | u1 :: u2 :: rest, ms => by
      obtain ⟨ih1, ih2, ih3, ih4⟩ := drainRev_spec rest (ms ++ [[u1, u2]])
      have hred : drainRev ms (u1 :: u2 :: rest) = drainRev (ms ++ [[u1, u2]]) rest := by
        rw [drainRev]
      rw [hred]
      refine ⟨?_, ?_, ?_, ?_⟩
      · rw [ih1, List.flatten_append]
        simp [List.append_assoc]
      · rw [ih2]
        simp only [List.length_cons]
        omega
      · intro g hg
        rcases ih3 g hg with h | h
        · rcases List.mem_append.mp h with h | h
          · exact Or.inl h
          · have hg2 : g = [u1, u2] := List.mem_singleton.mp h
            exact Or.inr ⟨u1, u2, hg2⟩
        · exact Or.inr h
      · intro h
        have h2 := ih4 h
        exact absurd h2 (by simp)

theorem flatten_len_pairs : ∀ (l : List (List User)),
    (∀ g ∈ l, g.length = 2) → l.flatten.length = 2 * l.length
  | [], _ => rfl
  | a :: tl, h => by
      simp only [List.flatten_cons, List.length_append, List.length_cons]
      rw [flatten_len_pairs tl (fun g hg => h g (List.mem_cons_of_mem a hg)),
        h a (List.mem_cons_self a tl)]
      omega

theorem flatten_set_perm : ∀ (l : List (List User)) (i : Nat) (x : User),
    i < l.length →
    ((l.set i ((l.getD i []) ++ [x])).flatten).Perm (l.flatten ++ [x])
  | [], i, x, h => absurd h (by simp)
  | a :: tl, 0, x, _ => by
      simp only [List.set_cons_zero, List.getD_cons_zero, List.flatten_cons]
      rw [List.append_assoc, List.append_assoc]
      exact List.Perm.append_left a List.perm_append_comm
  | a :: tl, i + 1, x, h => by
      simp only [List.set_cons_succ, List.getD_cons_succ, List.flatten_cons]
      have ih := flatten_set_perm tl i x (by simpa using h)
      refine (List.Perm.append_left a ih).trans ?_
      rw [List.append_assoc]
  termination_by l => l.length

theorem countP_set_pairs : ∀ (l : List (List User)) (i : Nat) (v : List User),
    (∀ g ∈ l, g.length = 2) → i < l.length →
    (l.set i v).countP (fun g => g.length == 3) =
      if v.length == 3 then 1 else 0
  | [], _, _, _, h => absurd h (by simp)
  | a :: tl, 0, v, hall, _ => by
      simp only [List.set_cons_zero]
      rw [List.countP_cons]
      have h0 : tl.countP (fun g => g.length == 3) = 0 := by
        rw [List.countP_eq_zero]
        intro g hg
        simp [hall g (List.mem_cons_of_mem a hg)]
      rw [h0]
      simp
  | a :: tl, i + 1, v, hall, h => by
      simp only [List.set_cons_succ]
      rw [List.countP_cons,
        countP_set_pairs tl i v (fun g hg => hall g (List.mem_cons_of_mem a hg))
          (by simpa using h)]
      simp [hall a (List.mem_cons_self a tl)]
  termination_by l => l.length

theorem generate_matches_main (users : List User) (hist : List (Int × Int)) (k : Nat)
    (hnd : (users.map User.user_id).Nodup) (hlen : 2 ≤ users.length) :
    ((generate_matches users hist k).flatten).Perm users ∧
    (∀ g ∈ generate_matches users hist k, g.length = 2 ∨ g.length = 3) ∧
    (users.length % 2 = 0 → ∀ g ∈ generate_matches users hist k, g.length = 2) ∧
    (users.length % 2 = 1 →
      (generate_matches users hist k).countP (fun g => g.length == 3) = 1) ∧
    (generate_matches users hist k).countP (fun g => g.length == 3) ≤ 1 := by
  obtain ⟨hperm, hshape⟩ := phase1_props users hist hnd
  obtain ⟨hdj, hdl, hdsh, hdemp⟩ :=
    drainRev_spec (phase1St users hist).unmatched.reverse (phase1St users hist).groups
  have hgm : generate_matches users hist k =
      lonelyStep (drainRev (phase1St users hist).groups
        (phase1St users hist).unmatched.reverse) k := rfl
  rcases hdr : drainRev (phase1St users hist).groups
      (phase1St users hist).unmatched.reverse with ⟨ms, rest⟩
  rw [hdr] at hdj hdl hdsh hdemp hgm
  simp only at hdj hdl hdsh hdemp
  have hperm2 : users.Perm (ms.flatten ++ rest) := by
    have h1 : (ms.flatten ++ rest).Perm
        ((phase1St users hist).groups.flatten ++ (phase1St users hist).unmatched) := by
      rw [hdj]
      exact List.Perm.append_left _ (List.reverse_perm _)
    exact hperm.trans h1.symm
  have hms2 : ∀ g ∈ ms, g.length = 2 := by
    intro g hg
    rcases hdsh g hg with h | h
    · obtain ⟨a, b, rfl⟩ := hshape g h; rfl
    · obtain ⟨a, b, rfl⟩ := h; rfl
  have hrle : rest.length ≤ 1 := by
    rw [hdl]; omega
  have hflat_len : ms.flatten.length = 2 * ms.length := flatten_len_pairs ms hms2
  have hlen_eq : users.length = ms.flatten.length + rest.length := by
    have h := hperm2.length_eq
    simpa using h
  have hpar : users.length % 2 = rest.length := by omega
  rw [hgm]
  rcases rest with _ | ⟨x, _ | ⟨y, t⟩⟩
  · have hred : lonelyStep (ms, ([] : List User)) k = ms := rfl
    rw [hred]
    refine ⟨by simpa using hperm2.symm, ?_, ?_, ?_, ?_⟩
    · intro g hg; exact Or.inl (hms2 g hg)
    · intro _ g hg; exact hms2 g hg
    · intro hodd; simp at hpar; omega
    · have hc : ms.countP (fun g => g.length == 3) = 0 := by
        rw [List.countP_eq_zero]
        intro g hg
        simp [hms2 g hg]
      omega
  · have hodd : users.length % 2 = 1 := by simpa using hpar
    have hmsne : ms ≠ [] := by
      intro hempty
      rw [hempty] at hlen_eq
      simp at hlen_eq
      omega
    have hpos : 0 < ms.length := List.length_pos.mpr hmsne
    have hidx : k % ms.length < ms.length := Nat.mod_lt _ hpos
    have hemp : ms.isEmpty = false := by
      cases hms : ms.isEmpty
      · rfl
      · exact absurd (List.isEmpty_iff.mp hms) hmsne
    have hred : lonelyStep (ms, [x]) k =
        ms.set (k % ms.length) (ms.getD (k % ms.length) [] ++ [x]) := by
      simp [lonelyStep, hemp]
    rw [hred]
    have hgmem : ms.getD (k % ms.length) [] ∈ ms := by
      rw [List.getD_eq_getElem _ _ hidx]
      exact List.getElem_mem hidx
    have hg3 : (ms.getD (k % ms.length) [] ++ [x]).length = 3 := by
      rw [List.length_append, hms2 _ hgmem]
      rfl
    refine ⟨?_, ?_, ?_, ?_, ?_⟩
    · exact (flatten_set_perm ms (k % ms.length) x hidx).trans hperm2.symm
    · intro g hg
      rcases List.mem_or_eq_of_mem_set hg with h | h
      · exact Or.inl (hms2 g h)
      · rw [h]; exact Or.inr hg3
    · intro heven; omega
    · intro _
      rw [countP_set_pairs ms (k % ms.length) _ hms2 hidx, hg3]
      rfl
    · rw [countP_set_pairs ms (k % ms.length) _ hms2 hidx, hg3]
      simp
  · exfalso
    simp only [List.length_cons] at hrle
    omega

/-- Claim C3: on at least two distinct members, the matching engine
returns groups whose concatenation is a permutation of the input list —
every member appears in exactly one group, no omissions, no duplicates
(for any history set and any random choices). -/
theorem generate_matches_partition (users : List User) (hist : List (Int × Int))
    (k : Nat) (hnd : (users.map User.user_id).Nodup) (hlen : 2 ≤ users.length) :
    ((generate_matches users hist k).flatten).Perm users :=
  (generate_matches_main users hist k hnd hlen).1

/-- Witness for C3 on a two-member roster. -/
theorem generate_matches_partition_witness :
    ((generate_matches [mkUser 1, mkUser 2] [] 0).flatten).Perm
      [mkUser 1, mkUser 2] :=
  generate_matches_partition [mkUser 1, mkUser 2] [] 0 (by decide) (by decide)

/-- Claim C4: every returned group has size 2 or 3; at most one group has
size 3; for an even roster all groups have size exactly 2; and for an
odd roster exactly one group has size 3. -/
theorem generate_matches_sizes (users : List User) (hist : List (Int × Int))
    (k : Nat) (hnd : (users.map User.user_id).Nodup) (hlen : 2 ≤ users.length) :
    (∀ g ∈ generate_matches users hist k, g.length = 2 ∨ g.length = 3) ∧
    (generate_matches users hist k).countP (fun g => g.length == 3) ≤ 1 ∧
    (users.length % 2 = 0 → ∀ g ∈ generate_matches users hist k, g.length = 2) ∧
    (users.length % 2 = 1 →
      (generate_matches users hist k).countP (fun g => g.length == 3) = 1) :=
  let m := generate_matches_main users hist k hnd hlen
  ⟨m.2.1, m.2.2.2.2, m.2.2.1, m.2.2.2.1⟩

/-- Witness for C4 on an odd (three-member) roster. -/
theorem generate_matches_sizes_witness :
    (∀ g ∈ generate_matches [mkUser 1, mkUser 2, mkUser 3] [] 0,
        g.length = 2 ∨ g.length = 3) ∧
    (generate_matches [mkUser 1, mkUser 2, mkUser 3] [] 0).countP
        (fun g => g.length == 3) ≤ 1 ∧
    ([mkUser 1, mkUser 2, mkUser 3].length % 2 = 0 →
      ∀ g ∈ generate_matches [mkUser 1, mkUser 2, mkUser 3] [] 0, g.length = 2) ∧
    ([mkUser 1, mkUser 2, mkUser 3].length % 2 = 1 →
      (generate_matches [mkUser 1, mkUser 2, mkUser 3] [] 0).countP
          (fun g => g.length == 3) = 1) :=
  generate_matches_sizes [mkUser 1, mkUser 2, mkUser 3] [] 0 (by decide) (by decide)

/-- Claim C5: even when the history set blocks every pair of input members,
the engine still returns a full partition (repeat matches are accepted
in the drain phase) and no member is left out of all groups. -/
theorem generate_matches_full_history (users : List User) (hist : List (Int × Int))
    (k : Nat) (hnd : (users.map User.user_id).Nodup) (hlen : 2 ≤ users.length)
    (hfull : ∀ u ∈ users, ∀ v ∈ users, u ≠ v → sortPair u.user_id v.user_id ∈ hist) :
    ((generate_matches users hist k).flatten).Perm users ∧
    ∀ u ∈ users, ∃ g ∈ generate_matches users hist k, u ∈ g := by
  have h := (generate_matches_main users hist k hnd hlen).1
  refine ⟨h, ?_⟩
  intro u hu
  have hm : u ∈ (generate_matches users hist k).flatten := h.mem_iff.mpr hu
  exact List.mem_flatten.mp hm

/-- Witness for C5: two members whose pair is already in history still both
get matched. -/
theorem generate_matches_full_history_witness :
    ((generate_matches [mkUser 1, mkUser 2] [(1, 2)] 0).flatten).Perm
      [mkUser 1, mkUser 2] ∧
    ∀ u ∈ [mkUser 1, mkUser 2],
      ∃ g ∈ generate_matches [mkUser 1, mkUser 2] [(1, 2)] 0, u ∈ g :=
  generate_matches_full_history [mkUser 1, mkUser 2] [(1, 2)] 0
    (by decide) (by decide) (by decide)

end CommunityBot
